import Mathlib

/-!
Shallow embedding of librequests (src/requests.c), a thin wrapper around
the libcurl transfer engine.

Modelling conventions:
* C strings and byte buffers are lists of byte values (`List Nat`); the
  value of a `char *` string is the (null-free) byte sequence before its
  terminator.
* The curl easy handle is a record of the options that have been set on it.
* The transfer engine (libcurl) is abstracted by the list of chunks it
  delivers to the write callback during `curl_easy_perform` and the
  response code it reports through `CURLINFO_RESPONSE_CODE`.
* Failed assertions and undefined behaviour that influences a computed
  value (out-of-bounds array reads, reads of a buffer no write has ever
  initialized, writes past the end of a stack buffer) are made explicit
  through an error type; a stack buffer whose content is indeterminate
  is modelled as `none`, and a write past a buffer's capacity is
  recorded in a flag (execution continues, as the machine's does) and
  surfaced as an error when the buffer's value is consumed.
-/

namespace Librequests

/-- Byte values of an ASCII string literal. -/
def strB (s : String) : List Nat := s.data.map Char.toNat

/-- Assertion failures and value-affecting undefined behaviour. -/
inductive Err where
  /-- `assert(req->url != NULL)` in `requests_get` fails. -/
  | noUrl : Err
  /-- `assert(put_flag == 0 || put_flag == 1)` in `requests_pt` fails. -/
  | invalidPutFlag : Err
  /-- `assert(data_size % 2 == 0)` in `requests_pt` fails. -/
  | oddDataSize : Err
  /-- Read of index `i` past the end of a caller-supplied array. -/
  | oobRead (i : Nat) : Err
  /-- Read of a buffer whose content was never initialized. -/
  | uninitRead : Err
  /-- Write past the end of a stack buffer (`strncat` overflowing
  `encoded[total_size]`). -/
  | bufOverflow : Err
  deriving DecidableEq

/-- The `REQ` struct: declared in requests.h (not under src/), its four
fields are exactly the ones requests.c uses (`req->code`, `req->url`,
`req->text`, `req->size`); `text` holds the C-string value of the owned
response buffer. -/
structure REQ where
  code : Int
  url : Option (List Nat)
  text : List Nat
  size : Nat
  deriving DecidableEq

/-- `uname(2)` result: the host OS name and release used by `user_agent`. -/
structure Uname where
  sysname : List Nat
  release : List Nat
  deriving DecidableEq

/-- The options `requests_get` / `requests_pt` set on the curl easy handle. -/
structure CurlConfig where
  url : Option (List Nat) := none
  writefunction_set : Bool := false
  writedata_set : Bool := false
  postfields : Option (List Nat) := none
  httpheader : Option (List (List Nat)) := none
  customrequest : Option (List Nat) := none
  post : Bool := false
  useragent : Option (List Nat) := none
  deriving DecidableEq

/-- One transfer as seen by this layer: the chunks libcurl hands to the
write callback, and the response code it reports afterwards (0 when no
response was obtained). -/
structure Engine where
  chunks : List (List Nat)
  code : Int
  deriving DecidableEq

/-- `strndup(s, n)`: copy at most `n` bytes of `s`, stopping at the first
null byte. -/
def strndup (s : List Nat) (n : Nat) : List Nat :=
  (s.take n).takeWhile (fun b => b != 0)

/-- `callback` (requests.c lines 57-73).  The buffer is reallocated to
`size + real_size + 1` bytes (capacity is not modelled; it always
suffices because `strlen(text) <= size`), `size` grows by `real_size`,
and `strcat` appends the `strndup` copy of the chunk at the current
terminator of `text`. -/
def callback (content : List Nat) (size nmemb : Nat) (userdata : REQ) :
    Nat × REQ :=
  let real_size := size * nmemb
  let userdata := { userdata with size := userdata.size + real_size }
  let responsetext := strndup content real_size
  (real_size, { userdata with text := userdata.text ++ responsetext })

/-- `requests_init` (lines 32-42): zero code, caller's url, a
`calloc(1,1)` empty text buffer, zero size, and a fresh easy handle. -/
def requests_init (url : Option (List Nat)) : REQ × CurlConfig :=
  ({ code := 0, url := url, text := [], size := 0 }, {})

/-- Read `a[i]`; past the end of the array this is undefined behaviour. -/
def getArr (a : List (List Nat)) (i : Nat) : Except Err (List Nat) :=
  match a.get? i with
  | some s => .ok s
  | none => .error (Err.oobRead i)

/-- First loop of `url_encode` (lines 104-110): sum of `strlen(data[i])`
for `i < n`. -/
def sumLens (data : List (List Nat)) : Nat → Except Err Nat
  | 0 => .ok 0
  | n + 1 =>
    match sumLens data n with
    | .error e => .error e
    | .ok acc =>
      match getArr data n with
      | .error e => .error e
      | .ok s => .ok (acc + s.length)

/-- `strncat(dst, src, strlen(src))` on the `encoded` stack buffer of
`cap` bytes: appending to a buffer with indeterminate content leaves it
indeterminate, and otherwise the call writes `strlen(dst) + strlen(src)
+ 1` bytes (terminator included), so whenever that exceeds `cap` the
write runs past the end of the array.  The machine keeps executing after
such a write, so the loop goes on; the overflow is recorded in the
second component and surfaced when the buffer's value is consumed. -/
def strncatB (cap : Nat) (st : Option (List Nat) × Bool) (src : List Nat) :
    Option (List Nat) × Bool :=
  match st with
  | (none, ovf) => (none, ovf)
  | (some d, ovf) =>
    (some (d ++ src), ovf || decide (cap < d.length + src.length + 1))

/-- Second loop of `url_encode` (lines 116-127): `for (i = 0; i <
data_size; i += 2)`, assembling `key=val` for the first pair and
`&key=val` afterwards (`snprintf(term, term_size, ...)` never truncates:
`term_size` is exactly the formatted length plus one), then
`strncat`-ing each term into the `encoded` buffer of `cap` bytes.  The
loop is translated with an explicit fuel argument; `fuel = data_size`
always covers every iteration since `i` grows by 2 per step. -/
def pairLoop (data : List (List Nat)) (data_size cap : Nat) :
    Nat → Nat → Option (List Nat) × Bool → Except Err (Option (List Nat) × Bool)
  | 0, _, st => .ok st
  | fuel + 1, i, st =>
    if i < data_size then
      match getArr data i with
      | .error e => .error e
      | .ok key =>
        match getArr data (i + 1) with
        | .error e => .error e
        | .ok val =>
          let term := if i = 0 then key ++ [61] ++ val
                      else [38] ++ key ++ [61] ++ val
          pairLoop data data_size cap fuel (i + 2) (strncatB cap st term)
    else .ok st

/-- libcurl escapes every byte that is not alphanumeric or `- . _ ~`. -/
def isUnreservedByte (b : Nat) : Bool :=
  decide ((48 ≤ b ∧ b ≤ 57) ∨ (65 ≤ b ∧ b ≤ 90) ∨ (97 ≤ b ∧ b ≤ 122) ∨
    b = 45 ∨ b = 46 ∨ b = 95 ∨ b = 126)

/-- Uppercase hexadecimal digit. -/
def hexDigit (n : Nat) : Nat := if n < 10 then 48 + n else 55 + n

/-- One byte of `curl_easy_escape` output. -/
def escapeByte (b : Nat) : List Nat :=
  if isUnreservedByte b then [b] else [37, hexDigit (b / 16), hexDigit (b % 16)]

/-- `curl_easy_escape` (external transfer engine): percent-encode every
reserved byte of the input. -/
def curl_easy_escape (s : List Nat) : List Nat :=
  (s.map escapeByte).flatten

/-- `url_encode` (lines 100-132).  `total_size` counts only the key and
value bytes — neither the `=`/`&` delimiters nor the terminator — and is
both the size of the `char encoded[total_size]` stack buffer and the
`snprintf` bound.  Three undefined-behaviour sites follow: (a) when
`total_size == 0`, `snprintf(encoded, 0, "%s", "")` stores nothing (a
zero size writes no terminator), so the buffer keeps its indeterminate
stack content and the final `strlen`/`curl_easy_escape` read of it is
undefined; (b) the joined string needs `total_size + data_size` bytes,
so for every nonempty input some `strncat` writes past the end of
`encoded` and the final `strlen`/`curl_easy_escape` read past the
array; (c) an odd `data_size` makes the pair loop read
`data[data_size]` past the input array. -/
def url_encode (data : List (List Nat)) (data_size : Nat) :
    Except Err (List Nat) :=
  match sumLens data data_size with
  | .error e => .error e
  | .ok total_size =>
    let st0 : Option (List Nat) × Bool :=
      (if total_size = 0 then none else some [], false)
    match pairLoop data data_size total_size data_size 0 st0 with
    | .error e => .error e
    | .ok (none, _) => .error Err.uninitRead
    | .ok (some _, true) => .error Err.bufOverflow
    | .ok (some encoded, false) => .ok (curl_easy_escape encoded)

/-- `user_agent` (lines 236-253): `ua_size` is 3 (space, slash,
terminator) plus the three string lengths, and
`snprintf(ua, ua_size, "%s %s/%s", basic, kernel, version)` writes at
most `ua_size - 1` bytes, which is exactly the formatted length. -/
def user_agent (una : Uname) : List Nat :=
  let basic := strB "librequests/0.1"
  let ua_size := 3 + basic.length + una.sysname.length + una.release.length
  (basic ++ [32] ++ una.sysname ++ [47] ++ una.release).take (ua_size - 1)

/-- `common_opt` (lines 226-231): bind URL, write callback, write data. -/
def common_opt (curl : CurlConfig) (req : REQ) : CurlConfig :=
  { curl with url := req.url, writefunction_set := true, writedata_set := true }

/-- `curl_easy_perform`: the engine feeds each chunk to the write
callback (libcurl calls it with `size = 1`, `nmemb = chunk length`). -/
def curl_easy_perform (eng : Engine) (req : REQ) : REQ :=
  eng.chunks.foldl (fun r c => (callback c 1 c.length r).2) req

/-- `requests_get` (lines 79-92): `assert(req->url != NULL)` — the check
is only against NULL — then common options, perform, and the response
code is stored into `req->code`. -/
def requests_get (eng : Engine) (curl : CurlConfig) (req : REQ) :
    Except Err (CurlConfig × REQ) :=
  if req.url = none then .error Err.noUrl
  else
    let curl := common_opt curl req
    let curl := { curl with writefunction_set := true, writedata_set := true }
    .ok (curl, { curl_easy_perform eng req with code := eng.code })

/-- The header loop of `requests_pt` (lines 196-199): append
`headers[0..n-1]` to the slist, in order. -/
def readHdrs (hs : List (List Nat)) : Nat → Except Err (List (List Nat))
  | 0 => .ok []
  | n + 1 =>
    match readHdrs hs n with
    | .error e => .error e
    | .ok front =>
      match getArr hs n with
      | .error e => .error e
      | .ok h => .ok (front ++ [h])

/-- Shared tail of `requests_pt` (lines 203-220): common options, method
selection (`CURLOPT_CUSTOMREQUEST "PUT"` when `put_flag` is nonzero,
`CURLOPT_POST` otherwise), user agent, perform, response code into
`req->code`. -/
def requests_pt_finish (eng : Engine) (una : Uname) (req : REQ)
    (curl : CurlConfig) (put_flag : Nat) : Except Err (CurlConfig × REQ) :=
  let curl := common_opt curl req
  let curl :=
    if put_flag ≠ 0 then { curl with customrequest := some (strB "PUT") }
    else { curl with post := true }
  let curl := { curl with useragent := some (user_agent una) }
  .ok (curl, { curl_easy_perform eng req with code := eng.code })

/-- `requests_pt` (lines 169-221).  With body data: even-size assertion,
`url_encode`, `CURLOPT_POSTFIELDS`.  Without body data: `slist` becomes
`["Content-Length: 0"]`, and `CURLOPT_HTTPHEADER` is set right away only
when no custom headers were given; with custom headers the same slist —
still holding the content-length line — receives each `headers[i]` and is
then installed, so the zero content-length header is present whenever
`data == NULL`. -/
def requests_pt (eng : Engine) (una : Uname) (curl : CurlConfig) (req : REQ)
    (data : Option (List (List Nat))) (data_size : Nat)
    (headers : Option (List (List Nat))) (headers_size : Nat)
    (put_flag : Nat) : Except Err (CurlConfig × REQ) :=
  if put_flag = 0 ∨ put_flag = 1 then
    match data with
    | some d =>
      if data_size % 2 = 0 then
        match url_encode d data_size with
        | .error e => .error e
        | .ok encoded =>
          let curl1 := { curl with postfields := some encoded }
          match headers with
          | some hl =>
            match readHdrs hl headers_size with
            | .error e => .error e
            | .ok adds =>
              requests_pt_finish eng una req
                { curl1 with httpheader := some adds } put_flag
          | none => requests_pt_finish eng una req curl1 put_flag
      else .error Err.oddDataSize
    | none =>
      let slist := [strB "Content-Length: 0"]
      match headers with
      | some hl =>
        match readHdrs hl headers_size with
        | .error e => .error e
        | .ok adds =>
          requests_pt_finish eng una req
            { curl with httpheader := some (slist ++ adds) } put_flag
      | none =>
        requests_pt_finish eng una req
          { curl with httpheader := some slist } put_flag
  else .error Err.invalidPutFlag

/-- `requests_post` (lines 134-137). -/
def requests_post (eng : Engine) (una : Uname) (curl : CurlConfig) (req : REQ)
    (data : Option (List (List Nat))) (data_size : Nat) :
    Except Err (CurlConfig × REQ) :=
  requests_pt eng una curl req data data_size none 0 0

/-- `requests_put` (lines 139-142). -/
def requests_put (eng : Engine) (una : Uname) (curl : CurlConfig) (req : REQ)
    (data : Option (List (List Nat))) (data_size : Nat) :
    Except Err (CurlConfig × REQ) :=
  requests_pt eng una curl req data data_size none 0 1

/-- `requests_post_headers` (lines 144-148). -/
def requests_post_headers (eng : Engine) (una : Uname) (curl : CurlConfig)
    (req : REQ) (data : Option (List (List Nat))) (data_size : Nat)
    (headers : Option (List (List Nat))) (headers_size : Nat) :
    Except Err (CurlConfig × REQ) :=
  requests_pt eng una curl req data data_size headers headers_size 0

/-- `requests_put_headers` (lines 150-154). -/
def requests_put_headers (eng : Engine) (una : Uname) (curl : CurlConfig)
    (req : REQ) (data : Option (List (List Nat))) (data_size : Nat)
    (headers : Option (List (List Nat))) (headers_size : Nat) :
    Except Err (CurlConfig × REQ) :=
  requests_pt eng una curl req data data_size headers headers_size 1

/-- The bytes one transfer appends to the response buffer: the
concatenation of the `strndup` copies of the chunks. -/
def accumulated (chunks : List (List Nat)) : List Nat :=
  (chunks.map (fun c => strndup c c.length)).flatten

/-- The amount `req->size` grows by during one transfer. -/
def sizeSum (chunks : List (List Nat)) : Nat :=
  (chunks.map List.length).sum

/-- Total byte length of the claimed inputs, `total_size` of `url_encode`
when the whole array is summed. -/
def totalLens (data : List (List Nat)) : Nat :=
  (data.map List.length).sum

/-- Spec-side definition (§4.2, written from the spec's words, for
comparison with `url_encode`): continuation of the join after the first
pair, each further pair contributing `&key=val`. -/
def specJoinTail : List (List Nat) → List Nat
  | k :: v :: rest => [38] ++ k ++ [61] ++ v ++ specJoinTail rest
  | _ => []

/-- Spec-side definition (§4.2): the string `"key0=value0&key1=value1&..."`
the spec says `url_encode` assembles before percent-encoding. -/
def specJoin : List (List Nat) → List Nat
  | k :: v :: rest => k ++ [61] ++ v ++ specJoinTail rest
  | _ => []

/-! ### Helper lemmas -/

theorem getArr_ok {a : List (List Nat)} {i : Nat} (h : i < a.length) :
    getArr a i = .ok a[i] := by
  unfold getArr
  rw [List.get?_eq_getElem?, List.getElem?_eq_getElem h]

theorem getArr_oob {a : List (List Nat)} {i : Nat} (h : a.length ≤ i) :
    getArr a i = .error (Err.oobRead i) := by
  unfold getArr
  rw [List.get?_eq_getElem?, List.getElem?_eq_none h]

theorem getArr_inv {a : List (List Nat)} {i : Nat} {s : List Nat}
    (h : getArr a i = .ok s) : a.get? i = some s := by
  unfold getArr at h
  cases hg : a.get? i with
  | none => rw [hg] at h; exact Except.noConfusion h
  | some t =>
    rw [hg] at h
    exact congrArg some (Except.ok.inj h)

theorem readHdrs_ok (hl : List (List Nat)) :
    ∀ (n : Nat) (adds : List (List Nat)),
      readHdrs hl n = .ok adds → adds = hl.take n := by
  intro n
  induction n with
  | zero =>
    intro adds h
    simp only [readHdrs, Except.ok.injEq] at h
    simp [h.symm]
  | succ n ih =>
    intro adds h
    unfold readHdrs at h
    cases hf : readHdrs hl n with
    | error e => rw [hf] at h; exact Except.noConfusion h
    | ok front =>
      rw [hf] at h
      cases hg : getArr hl n with
      | error e => rw [hg] at h; exact Except.noConfusion h
      | ok x =>
        rw [hg] at h
        have hx := getArr_inv hg
        rw [List.get?_eq_getElem?] at hx
        have hfront := ih front hf
        have hadds : front ++ [x] = adds := Except.ok.inj h
        rw [← hadds, hfront, List.take_succ, hx]
        rfl

theorem sumLens_eq (data : List (List Nat)) :
    ∀ n, n ≤ data.length →
      sumLens data n = .ok (((data.take n).map List.length).sum) := by
  intro n
  induction n with
  | zero => intro _; rfl
  | succ n ih =>
    intro hle
    have hlt : n < data.length := Nat.lt_of_succ_le hle
    have e1 : sumLens data (n + 1)
        = .ok ((((data.take n).map List.length).sum) + data[n].length) := by
      unfold sumLens
      rw [ih (Nat.le_of_succ_le hle), getArr_ok hlt]
    have e2 : (data.take (n + 1)).map List.length
        = (data.take n).map List.length ++ [data[n].length] := by
      rw [List.take_succ, List.getElem?_eq_getElem hlt, List.map_append]
      rfl
    rw [e1, e2]
    simp

theorem callback_spec (content : List Nat) (size nmemb : Nat) (r : REQ) :
    callback content size nmemb r
      = (size * nmemb,
         { r with text := r.text ++ strndup content (size * nmemb),
                  size := r.size + size * nmemb }) := rfl

theorem perform_aux (chunks : List (List Nat)) (req : REQ) :
    chunks.foldl (fun r c => (callback c 1 c.length r).2) req
      = { req with text := req.text ++ accumulated chunks,
                   size := req.size + sizeSum chunks } := by
  induction chunks generalizing req with
  | nil => simp [accumulated, sizeSum]
  | cons c cs ih =>
    simp only [List.foldl_cons]
    rw [ih]
    simp [callback, accumulated, sizeSum, Nat.one_mul, Nat.add_assoc]

theorem perform_spec (eng : Engine) (req : REQ) :
    curl_easy_perform eng req
      = { req with text := req.text ++ accumulated eng.chunks,
                   size := req.size + sizeSum eng.chunks } :=
  perform_aux eng.chunks req

theorem requests_pt_finish_spec (eng : Engine) (una : Uname) (req : REQ)
    (curl : CurlConfig) (pf : Nat) :
    requests_pt_finish eng una req curl pf =
      .ok ({ common_opt curl req with
               post := if pf ≠ 0 then curl.post else true,
               customrequest := if pf ≠ 0 then some (strB "PUT")
                                else curl.customrequest,
               useragent := some (user_agent una) },
           { curl_easy_perform eng req with code := eng.code }) := by
  unfold requests_pt_finish
  by_cases h : pf ≠ 0 <;> simp [h, common_opt]

/-- Full characterization of a successful `requests_pt` call: the final
request state and every claim-relevant field of the final handle
configuration. -/
theorem requests_pt_ok_char
    {eng : Engine} {una : Uname} {curl : CurlConfig} {req : REQ}
    {data : Option (List (List Nat))} {data_size : Nat}
    {headers : Option (List (List Nat))} {headers_size : Nat}
    {put_flag : Nat} {cfg : CurlConfig} {req' : REQ}
    (h : requests_pt eng una curl req data data_size headers headers_size
      put_flag = .ok (cfg, req')) :
    req' = { curl_easy_perform eng req with code := eng.code }
    ∧ cfg.url = req.url
    ∧ cfg.useragent = some (user_agent una)
    ∧ cfg.post = (if put_flag ≠ 0 then curl.post else true)
    ∧ cfg.customrequest = (if put_flag ≠ 0 then some (strB "PUT")
        else curl.customrequest)
    ∧ (data = none →
        cfg.httpheader
          = some (strB "Content-Length: 0" :: (headers.getD []).take headers_size)
        ∧ cfg.postfields = curl.postfields)
    ∧ (∀ d, data = some d →
        (headers = none → cfg.httpheader = curl.httpheader)
        ∧ (∀ hl, headers = some hl →
            cfg.httpheader = some (hl.take headers_size))
        ∧ ∃ enc, url_encode d data_size = .ok enc
            ∧ cfg.postfields = some enc) := by
  unfold requests_pt at h
  split at h
  case isFalse => exact Except.noConfusion h
  case isTrue hpf =>
    cases data with
    | none =>
      cases headers with
      | none =>
        simp only [requests_pt_finish_spec, Except.ok.injEq,
          Prod.mk.injEq] at h
        obtain ⟨hcfg, hreq⟩ := h
        subst hcfg hreq
        refine ⟨rfl, rfl, rfl, rfl, rfl, fun _ => ⟨?_, rfl⟩,
          fun d hd => Option.noConfusion hd⟩
        simp [common_opt]
      | some hl =>
        cases hrh : readHdrs hl headers_size with
        | error e =>
          simp only [hrh] at h
          exact Except.noConfusion h
        | ok adds =>
          simp only [hrh, requests_pt_finish_spec, Except.ok.injEq,
            Prod.mk.injEq] at h
          obtain ⟨hcfg, hreq⟩ := h
          subst hcfg hreq
          refine ⟨rfl, rfl, rfl, rfl, rfl, fun _ => ⟨?_, rfl⟩,
            fun d hd => Option.noConfusion hd⟩
          simp [common_opt, readHdrs_ok hl headers_size adds hrh]
    | some d =>
      dsimp only at h
      split at h
      case isFalse => exact Except.noConfusion h
      case isTrue heven =>
        cases hue : url_encode d data_size with
        | error e =>
          simp only [hue] at h
          exact Except.noConfusion h
        | ok enc =>
          cases headers with
          | none =>
            simp only [hue, requests_pt_finish_spec, Except.ok.injEq,
              Prod.mk.injEq] at h
            obtain ⟨hcfg, hreq⟩ := h
            subst hcfg hreq
            exact ⟨rfl, rfl, rfl, rfl, rfl,
              fun hd => Option.noConfusion hd,
              fun d' hd => by
                obtain rfl : d = d' := Option.some.inj hd
                exact ⟨fun _ => rfl, fun hl hhl => Option.noConfusion hhl,
                  enc, hue, rfl⟩⟩
          | some hl =>
            cases hrh : readHdrs hl headers_size with
            | error e =>
              simp only [hue, hrh] at h
              exact Except.noConfusion h
            | ok adds =>
              simp only [hue, hrh, requests_pt_finish_spec, Except.ok.injEq,
                Prod.mk.injEq] at h
              obtain ⟨hcfg, hreq⟩ := h
              subst hcfg hreq
              refine ⟨rfl, rfl, rfl, rfl, rfl,
                fun hd => Option.noConfusion hd,
                fun d' hd => ?_⟩
              obtain rfl : d = d' := Option.some.inj hd
              refine ⟨fun hn => Option.noConfusion hn, fun hl' hhl => ?_,
                enc, hue, rfl⟩
              obtain rfl : hl = hl' := Option.some.inj hhl
              simp [common_opt, readHdrs_ok hl headers_size adds hrh]

theorem getArr_err {a : List (List Nat)} {i : Nat} {e : Err}
    (h : getArr a i = .error e) : e = Err.oobRead i := by
  unfold getArr at h
  cases hg : a.get? i with
  | none => rw [hg] at h; exact (Except.error.inj h).symm
  | some t => rw [hg] at h; exact Except.noConfusion h

theorem readHdrs_err (hl : List (List Nat)) :
    ∀ (n : Nat) (e : Err), readHdrs hl n = .error e → ∃ i, e = Err.oobRead i := by
  intro n
  induction n with
  | zero => intro e h; exact Except.noConfusion h
  | succ n ih =>
    intro e h
    unfold readHdrs at h
    cases hf : readHdrs hl n with
    | error e' => rw [hf] at h; exact Except.error.inj h ▸ ih e' hf
    | ok front =>
      rw [hf] at h
      cases hg : getArr hl n with
      | error e' =>
        rw [hg] at h
        exact ⟨n, (Except.error.inj h).symm.trans (getArr_err hg)⟩
      | ok x => rw [hg] at h; exact Except.noConfusion h

theorem requests_get_ok_char {eng : Engine} {curl : CurlConfig} {req : REQ}
    {cfg : CurlConfig} {req' : REQ}
    (h : requests_get eng curl req = .ok (cfg, req')) :
    req' = { curl_easy_perform eng req with code := eng.code }
    ∧ cfg = { common_opt curl req with
                writefunction_set := true, writedata_set := true } := by
  unfold requests_get at h
  split at h
  case isTrue => exact Except.noConfusion h
  case isFalse =>
    simp only [Except.ok.injEq, Prod.mk.injEq] at h
    exact ⟨h.2.symm, h.1.symm⟩

/-- For an odd `data_size` matching the array length, the pair loop,
started at any even `i` below `data_size` with enough fuel, reaches the
read of `data[data_size]` one element past the end. -/
theorem pairLoop_oob {data : List (List Nat)} {ds cap : Nat}
    (hds : ds = data.length) (hodd : ds % 2 = 1) :
    ∀ (fuel i : Nat) (st : Option (List Nat) × Bool), i % 2 = 0 → i < ds →
      ds - i ≤ 2 * fuel →
      pairLoop data ds cap fuel i st = .error (Err.oobRead ds) := by
  intro fuel
  induction fuel with
  | zero => intro i st _ hi hb; omega
  | succ fuel ih =>
    intro i st hi2 hilt hb
    unfold pairLoop
    rw [if_pos hilt, getArr_ok (by omega : i < data.length)]
    by_cases hend : i + 1 = ds
    · have hoob : getArr data (i + 1) = .error (Err.oobRead ds) := by
        rw [hend]
        exact getArr_oob (by omega)
      rw [hoob]
    · have hval : getArr data (i + 1) = .ok data[i + 1] :=
        getArr_ok (by omega)
      rw [hval]
      exact ih (i + 2) _ (by omega) (by omega) (by omega)

/-- Joined length of the tail pairs: each further pair `k, v` contributes
`&k=v`, two delimiter bytes on top of the key/value bytes. -/
theorem specJoinTail_length (l : List (List Nat)) (h : l.length % 2 = 0) :
    (specJoinTail l).length = totalLens l + l.length := by
  match l with
  | [] => simp [specJoinTail, totalLens]
  | [k] => simp at h
  | k :: v :: rest =>
    have hr : rest.length % 2 = 0 := by
      simp only [List.length_cons] at h
      omega
    have ih := specJoinTail_length rest hr
    simp only [specJoinTail, totalLens, List.map_cons, List.sum_cons,
      List.length_append, List.length_cons, List.length_nil] at ih ⊢
    omega

/-- The joined string `k0=v0&k1=v1&...` plus its terminator needs
`total_size + data_size` bytes: one `=` per pair and one `&` between
pairs, then the final null. -/
theorem specJoin_length (data : List (List Nat)) (h : data.length % 2 = 0)
    (hne : data ≠ []) :
    (specJoin data).length + 1 = totalLens data + data.length := by
  match data with
  | [] => exact absurd rfl hne
  | [k] => simp at h
  | k :: v :: rest =>
    have hr : rest.length % 2 = 0 := by
      simp only [List.length_cons] at h
      omega
    have ht := specJoinTail_length rest hr
    simp only [specJoin, totalLens, List.map_cons, List.sum_cons,
      List.length_append, List.length_cons, List.length_nil] at ht ⊢
    omega

/-- After the first pair, the loop appends exactly the `&key=val` terms
of the remaining pairs; the overflow flag never clears, and it is set by
the end whenever the bytes the last `strncat` writes — the full final
content plus the terminator — exceed the buffer capacity. -/
theorem pairLoop_tail_spec {data : List (List Nat)} {ds cap : Nat}
    (hds : ds = data.length) (heven : ds % 2 = 0) :
    ∀ (fuel i : Nat) (e : List Nat) (ovf : Bool), i % 2 = 0 → 2 ≤ i →
      ds - i ≤ 2 * fuel →
      ∃ ovf' : Bool,
        pairLoop data ds cap fuel i (some e, ovf)
          = .ok (some (e ++ specJoinTail (data.drop i)), ovf')
        ∧ (ovf = true → ovf' = true)
        ∧ (i < ds →
            cap < e.length + (specJoinTail (data.drop i)).length + 1 →
            ovf' = true) := by
  intro fuel
  induction fuel with
  | zero =>
    intro i e ovf _ _ hb
    refine ⟨ovf, ?_, fun hv => hv, fun hlt _ => absurd hlt (by omega)⟩
    rw [List.drop_eq_nil_of_le (by omega : data.length ≤ i)]
    unfold pairLoop
    simp [specJoinTail]
  | succ fuel ih =>
    intro i e ovf hi2 hi2le hb
    by_cases hlt : i < ds
    · have hdrop : data.drop i = data[i] :: data[i + 1] :: data.drop (i + 2) := by
        rw [List.drop_eq_getElem_cons (by omega : i < data.length)]
        rw [List.drop_eq_getElem_cons (by omega : i + 1 < data.length)]
      have htail : specJoinTail (data.drop i)
          = ([38] ++ data[i] ++ [61] ++ data[i + 1])
            ++ specJoinTail (data.drop (i + 2)) := by
        rw [hdrop]
        simp [specJoinTail]
      have hcat : strncatB cap (some e, ovf)
          ([38] ++ data[i] ++ [61] ++ data[i + 1])
          = (some (e ++ ([38] ++ data[i] ++ [61] ++ data[i + 1])),
             ovf || decide (cap < e.length
               + ([38] ++ data[i] ++ [61] ++ data[i + 1]).length + 1)) := rfl
      obtain ⟨ovf', heq, hmono, hlast⟩ :=
        ih (i + 2) (e ++ ([38] ++ data[i] ++ [61] ++ data[i + 1]))
          (ovf || decide (cap
            < e.length + ([38] ++ data[i] ++ [61] ++ data[i + 1]).length + 1))
          (by omega) (by omega) (by omega)
      refine ⟨ovf', ?_, fun hv => hmono (by simp [hv]), ?_⟩
      · unfold pairLoop
        rw [if_pos hlt, getArr_ok (by omega : i < data.length),
          getArr_ok (by omega : i + 1 < data.length)]
        dsimp only
        rw [if_neg (by omega : ¬ i = 0), hcat, heq, htail]
        simp [List.append_assoc]
      · intro _ hcap
        by_cases hmore : i + 2 < ds
        · refine hlast hmore ?_
          have hlen2 : e.length + (specJoinTail (data.drop i)).length
              = (e ++ ([38] ++ data[i] ++ [61] ++ data[i + 1])).length
                + (specJoinTail (data.drop (i + 2))).length := by
            rw [htail]
            simp only [List.length_append]
            omega
          omega
        · have hdone : data.drop (i + 2) = [] :=
            List.drop_eq_nil_of_le (by omega)
          have hcap2 : cap < e.length
              + ([38] ++ data[i] ++ [61] ++ data[i + 1]).length + 1 := by
            rw [htail, hdone] at hcap
            simp only [specJoinTail, List.length_append, List.length_nil]
              at hcap ⊢
            omega
          apply hmono
          simp only [Bool.or_eq_true, decide_eq_true_eq]
          right
          simp only [List.length_append, List.length_cons, List.length_nil]
            at hcap2 ⊢
          omega
    · refine ⟨ovf, ?_, fun hv => hv, fun hlt' _ => absurd hlt' hlt⟩
      rw [List.drop_eq_nil_of_le (by omega : data.length ≤ i)]
      unfold pairLoop
      rw [if_neg hlt]
      simp [specJoinTail]

/-- For an odd `data_size` equal to the array length, `url_encode` reads
one element past the end of its input. -/
theorem url_encode_odd (data : List (List Nat)) (data_size : Nat)
    (hds : data_size = data.length) (hodd : data_size % 2 = 1) :
    url_encode data data_size = .error (Err.oobRead data_size) := by
  unfold url_encode
  rw [sumLens_eq data data_size (by omega)]
  dsimp only
  rw [pairLoop_oob hds hodd data_size 0 _ (by omega) (by omega) (by omega)]

/-- On an even-length array with a positive total byte count, some
`strncat` of the pair loop always writes past the end of the `encoded`
buffer — the buffer has `total_size` bytes while the joined string plus
terminator needs `total_size + data_size` — so `url_encode` has no
defined result. -/
theorem url_encode_overflow (data : List (List Nat))
    (heven : data.length % 2 = 0) (hpos : 0 < totalLens data) :
    url_encode data data.length = .error Err.bufOverflow := by
  cases data with
  | nil => simp [totalLens] at hpos
  | cons d0 tail =>
    cases tail with
    | nil => simp at heven
    | cons d1 rest =>
      have hne : ¬ (((d0 :: d1 :: rest).map List.length).sum = 0) := by
        intro hc
        rw [totalLens] at hpos
        omega
      unfold url_encode
      rw [sumLens_eq _ _ (Nat.le_refl _), List.take_length]
      dsimp only
      rw [if_neg hne]
      have hlen : (d0 :: d1 :: rest).length = rest.length + 1 + 1 := by simp
      rw [hlen]
      unfold pairLoop
      rw [if_pos (by omega : 0 < rest.length + 1 + 1)]
      rw [getArr_ok (by simp : 0 < (d0 :: d1 :: rest).length)]
      rw [getArr_ok (by simp : 0 + 1 < (d0 :: d1 :: rest).length)]
      dsimp only
      rw [if_pos rfl]
      rw [show (0 + 2 : Nat) = 2 from rfl]
      have hcat : strncatB ((List.map List.length (d0 :: d1 :: rest)).sum)
          (some ([] : List Nat), false)
          ((d0 :: d1 :: rest)[0] ++ [61] ++ (d0 :: d1 :: rest)[0 + 1])
          = (some ((d0 :: d1 :: rest)[0] ++ [61] ++ (d0 :: d1 :: rest)[0 + 1]),
             decide ((List.map List.length (d0 :: d1 :: rest)).sum
               < ((d0 :: d1 :: rest)[0] ++ [61]
                   ++ (d0 :: d1 :: rest)[0 + 1]).length + 1)) := by
        simp [strncatB]
      rw [hcat]
      obtain ⟨ovf', heq, hmono, hlast⟩ := pairLoop_tail_spec
        (show rest.length + 1 + 1 = (d0 :: d1 :: rest).length by simp)
        (by omega) (rest.length + 1) 2
        ((d0 :: d1 :: rest)[0] ++ [61] ++ (d0 :: d1 :: rest)[0 + 1])
        (decide ((List.map List.length (d0 :: d1 :: rest)).sum
          < ((d0 :: d1 :: rest)[0] ++ [61]
              ++ (d0 :: d1 :: rest)[0 + 1]).length + 1))
        (by omega) (by omega) (by omega)
      rw [heq]
      have hg0 : (d0 :: d1 :: rest)[0] = d0 := rfl
      have hg1 : (d0 :: d1 :: rest)[0 + 1] = d1 := rfl
      have hovf : ovf' = true := by
        by_cases hr0 : 2 < rest.length + 1 + 1
        · apply hlast hr0
          have h1 : List.drop 2 (d0 :: d1 :: rest) = rest := rfl
          have h2 := specJoinTail_length rest (by
            simp only [List.length_cons] at heven
            omega)
          rw [h1, h2, hg0, hg1]
          simp only [totalLens, List.map_cons, List.sum_cons,
            List.length_append, List.length_cons, List.length_nil]
          omega
        · have hrnil : rest = [] := List.length_eq_zero.mp (by omega)
          subst hrnil
          refine hmono (decide_eq_true ?_)
          rw [hg0, hg1]
          simp only [List.map_cons, List.map_nil, List.sum_cons, List.sum_nil,
            List.length_append, List.length_cons, List.length_nil]
          omega
      rw [hovf]

/-! ### Claims -/

/-- C1: the claim says every callback invocation appends exactly its
`chunk_len` bytes and keeps `body_length` equal to the byte length of
`body`.  The code uses `strndup`/`strcat`, which stop at the first null
byte of the chunk: on the 3-byte chunk `"a\0b"` only one byte is
appended while `size` grows by 3, so `size` no longer equals the length
of `text`. -/
theorem callback_nullbyte_truncation :
    callback [97, 0, 98] 1 3 { code := 0, url := none, text := [], size := 0 }
      = (3, { code := 0, url := none, text := [97], size := 3 })
    ∧ ({ code := 0, url := none, text := [97], size := 3 } : REQ).size
        ≠ ({ code := 0, url := none, text := [97], size := 3 } : REQ).text.length :=
  ⟨rfl, by decide⟩

/-- C2: the claim describes the code's evident intent — assemble
`"k0=v0&k1=v1&..."` and percent-encode the whole of it — but the code
gives the `encoded` stack buffer only `total_size` bytes (the key/value
bytes; the comment plans to hold the join in it), while the joined
string plus its terminator needs `total_size + data_size` bytes.  So on
every input containing a pair the `strncat` writes run past the end of
the array and the following `strlen`/`curl_easy_escape` read past it:
`url_encode` has no defined result where the claim promises the escaped
join (and with all strings empty it instead reads a buffer that was
never initialized). -/
theorem url_encode_overflows_buffer :
    (∀ data : List (List Nat), data.length % 2 = 0 → 0 < totalLens data →
      url_encode data data.length = .error Err.bufOverflow)
    ∧ (∀ data : List (List Nat), data.length % 2 = 0 → data ≠ [] →
      totalLens data < (specJoin data).length + 1) := by
  refine ⟨url_encode_overflow, fun data heven hne => ?_⟩
  have h := specJoin_length data heven hne
  have hlen : 2 ≤ data.length := by
    cases data with
    | nil => exact absurd rfl hne
    | cons a tail =>
      cases tail with
      | nil => simp at heven
      | cons b rest => simp only [List.length_cons]; omega
  omega

/-- C2 witness: on `["a","b"]` the two bytes of capacity cannot hold the
four bytes `strncat` writes, and `url_encode` ends in the overflow. -/
theorem url_encode_overflows_buffer_witness :
    ([[97], [98]] : List (List Nat)).length % 2 = 0
    ∧ 0 < totalLens [[97], [98]]
    ∧ url_encode [[97], [98]] 2 = .error Err.bufOverflow
    ∧ totalLens [[97], [98]] < (specJoin [[97], [98]]).length + 1 :=
  ⟨by decide, by decide,
    url_encode_overflows_buffer.1 [[97], [98]] (by decide) (by decide),
    url_encode_overflows_buffer.2 [[97], [98]] (by decide) (by decide)⟩

/-- C3 counterexample: a POST with no body data but with a custom header
still sends `"Content-Length: 0"` — the slist already holds it when the
custom headers are appended, and that combined list is installed — while
the claim says the zero-length header is not attached in this case. -/
theorem content_length_attached_with_headers :
    Except.map (fun p => p.1.httpheader)
      (requests_pt ⟨[], 0⟩ ⟨[], []⟩ {} ⟨0, some [], [], 0⟩ none 0
        (some [strB "X-Test: 1"]) 1 0)
      = .ok (some [strB "Content-Length: 0", strB "X-Test: 1"]) := rfl

/-- C3 (amended): on a successful POST/PUT, `"Content-Length: 0"` is
attached exactly when no body data is supplied, regardless of custom
headers: with `data = NULL` the outgoing header list is the zero-length
line followed by the custom headers (if any); with body data the header
option is just the custom headers (or whatever the handle already
held). -/
theorem content_length_exactly_when_no_data :
    ∀ eng una curl req data data_size headers headers_size put_flag cfg req',
      requests_pt eng una curl req data data_size headers headers_size put_flag
        = .ok (cfg, req') →
      (data = none → cfg.httpheader
        = some (strB "Content-Length: 0" :: (headers.getD []).take headers_size))
      ∧ (∀ d, data = some d →
          (headers = none → cfg.httpheader = curl.httpheader)
          ∧ (∀ hl, headers = some hl →
              cfg.httpheader = some (hl.take headers_size))) := by
  intro eng una curl req data data_size headers headers_size put_flag cfg req' h
  obtain ⟨-, -, -, -, -, h6, h7⟩ := requests_pt_ok_char h
  exact ⟨fun hd => (h6 hd).1, fun d hd => ⟨(h7 d hd).1, (h7 d hd).2.1⟩⟩

/-- C3 witness: POST with no data and no custom headers attaches exactly
the zero-length header. -/
theorem content_length_exactly_when_no_data_witness :
    requests_pt ⟨[], 0⟩ ⟨[], []⟩ {} ⟨0, some [], [], 0⟩ none 0 none 0 0
      = .ok (⟨some [], true, true, none, some [strB "Content-Length: 0"],
             none, true, some (strB "librequests/0.1 /")⟩,
             ⟨0, some [], [], 0⟩)
    ∧ (⟨some [], true, true, none, some [strB "Content-Length: 0"],
        none, true, some (strB "librequests/0.1 /")⟩ : CurlConfig).httpheader
        = some (strB "Content-Length: 0"
            :: ((none : Option (List (List Nat))).getD []).take 0) :=
  ⟨rfl,
    (content_length_exactly_when_no_data ⟨[], 0⟩ ⟨[], []⟩ {} ⟨0, some [], [], 0⟩
      none 0 none 0 0 _ _ rfl).1 rfl⟩

/-- C4: the claim says `url_encode` on an empty input returns an empty
encoded string; in fact `total_size` is 0, the `encoded` buffer is a
zero-size array that `snprintf(encoded, 0, "%s", "")` never initializes
(a zero size stores nothing, no terminator), and the final
`strlen`/escape read indeterminate stack bytes. -/
theorem url_encode_empty_input_indeterminate :
    url_encode [] 0 = .error Err.uninitRead := rfl

/-- C5 counterexample: `requests_get` with the empty (non-null) URL `""`
raises no contract violation — `assert(req->url != NULL)` only checks
for NULL — and proceeds to configure and perform the transfer, while the
claim says an empty URL fails with a contract-violation error before any
engine call. -/
theorem requests_get_empty_url_no_violation :
    requests_get ⟨[], 0⟩ {} ⟨0, some [], [], 0⟩
      = .ok (⟨some [], true, true, none, none, none, false, none⟩,
             ⟨0, some [], [], 0⟩) := rfl

/-- C5 (amended): `requests_get` fails with the contract-violation error
(before any engine interaction) exactly when the URL is absent (NULL);
an empty-string URL passes the assertion. -/
theorem requests_get_url_check :
    ∀ (eng : Engine) (curl : CurlConfig) (req : REQ),
      requests_get eng curl req = .error Err.noUrl ↔ req.url = none := by
  intro eng curl req
  unfold requests_get
  by_cases h : req.url = none
  · rw [if_pos h]
    simp [h]
  · rw [if_neg h]
    simp [h]

/-- C6: `status_code` is 0 from creation (`requests_init`), the
accumulator callback never touches it, and each executor sets it, after
the transfer, to the engine-reported code — so a failed transfer
(engine code 0) leaves it 0 while the bytes accumulated before the
failure remain appended to `body`. -/
theorem status_code_lifecycle :
    (∀ url, ((requests_init url).1).code = 0)
    ∧ (∀ content size nmemb r, ((callback content size nmemb r).2).code = r.code)
    ∧ (∀ (eng : Engine) (curl : CurlConfig) (req : REQ) cfg req',
        requests_get eng curl req = .ok (cfg, req') →
        req'.code = eng.code ∧ req'.text = req.text ++ accumulated eng.chunks)
    ∧ (∀ eng una curl req data data_size headers headers_size put_flag cfg req',
        requests_pt eng una curl req data data_size headers headers_size put_flag
          = .ok (cfg, req') →
        req'.code = eng.code ∧ req'.text = req.text ++ accumulated eng.chunks) := by
  refine ⟨fun url => rfl, fun content size nmemb r => rfl, ?_, ?_⟩
  · intro eng curl req cfg req' h
    obtain ⟨h1, -⟩ := requests_get_ok_char h
    subst h1
    refine ⟨rfl, ?_⟩
    rw [perform_spec]
  · intro eng una curl req data data_size headers headers_size put_flag cfg req' h
    obtain ⟨h1, -⟩ := requests_pt_ok_char h
    subst h1
    refine ⟨rfl, ?_⟩
    rw [perform_spec]

/-- C6 witness: a GET whose engine delivers `"hi"` and reports 200. -/
theorem status_code_lifecycle_witness :
    requests_get ⟨[[104, 105]], 200⟩ {} ⟨0, some (strB "u"), [], 0⟩
      = .ok (⟨some (strB "u"), true, true, none, none, none, false, none⟩,
             ⟨200, some (strB "u"), [104, 105], 2⟩)
    ∧ ((⟨200, some (strB "u"), [104, 105], 2⟩ : REQ).code
          = (⟨[[104, 105]], 200⟩ : Engine).code
      ∧ (⟨200, some (strB "u"), [104, 105], 2⟩ : REQ).text
          = (⟨0, some (strB "u"), [], 0⟩ : REQ).text ++ accumulated [[104, 105]]) :=
  ⟨rfl,
    status_code_lifecycle.2.2.1 ⟨[[104, 105]], 200⟩ {} ⟨0, some (strB "u"), [], 0⟩
      _ _ rfl⟩

/-- C7: during an executor invocation the request context changes only as
the claim allows: the callback touches neither `url` nor `code`, the
fold of the callback over the delivered chunks preserves `url` and
`code`, and on success each executor leaves the context equal to that
callback fold with only `code` then set — in particular `target_url` is
never modified. -/
theorem executor_frame :
    (∀ content size nmemb r,
        ((callback content size nmemb r).2).url = r.url
        ∧ ((callback content size nmemb r).2).code = r.code)
    ∧ (∀ (eng : Engine) (req : REQ),
        (curl_easy_perform eng req).url = req.url
        ∧ (curl_easy_perform eng req).code = req.code)
    ∧ (∀ (eng : Engine) (curl : CurlConfig) (req : REQ) cfg req',
        requests_get eng curl req = .ok (cfg, req') →
        req' = { curl_easy_perform eng req with code := eng.code })
    ∧ (∀ eng una curl req data data_size headers headers_size put_flag cfg req',
        requests_pt eng una curl req data data_size headers headers_size put_flag
          = .ok (cfg, req') →
        req' = { curl_easy_perform eng req with code := eng.code }) := by
  refine ⟨fun content size nmemb r => ⟨rfl, rfl⟩, ?_, ?_, ?_⟩
  · intro eng req
    rw [perform_spec]
    exact ⟨rfl, rfl⟩
  · intro eng curl req cfg req' h
    exact (requests_get_ok_char h).1
  · intro eng una curl req data data_size headers headers_size put_flag cfg req' h
    exact (requests_pt_ok_char h).1

/-- C7 witness: a PUT with no data and no headers over a concrete
transfer. -/
theorem executor_frame_witness :
    requests_pt ⟨[[104, 105]], 200⟩ ⟨[], []⟩ {} ⟨0, some [], [], 0⟩ none 0 none 0 1
      = .ok (⟨some [], true, true, none, some [strB "Content-Length: 0"],
             some (strB "PUT"), false, some (strB "librequests/0.1 /")⟩,
             ⟨200, some [], [104, 105], 2⟩)
    ∧ (⟨200, some [], [104, 105], 2⟩ : REQ)
        = { curl_easy_perform ⟨[[104, 105]], 200⟩ ⟨0, some [], [], 0⟩ with
              code := (⟨[[104, 105]], 200⟩ : Engine).code } :=
  ⟨rfl,
    executor_frame.2.2.2 ⟨[[104, 105]], 200⟩ ⟨[], []⟩ {} ⟨0, some [], [], 0⟩
      none 0 none 0 1 _ _ rfl⟩

/-- C8: the claim's "identical encoded bodies" presupposes a defined
`url_encode` result, but the code yields none for any data containing a
pair — the `encoded` buffer overflows (see C2) — so with data
`["a","b"]` both POST and PUT fail identically with the overflow instead
of attaching a body.  What the shared implementation does exhibit, and
this theorem states, is: `requests_post`/`requests_put` are the same
`requests_pt` call differing only in the method flag, with body data
both methods reach the same undefined `url_encode` the same way, and on
the defined no-data path the resulting configurations are identical
except for the method options (PUT sets the custom-method override
`"PUT"`, POST sets the engine's native POST mode). -/
theorem post_put_no_defined_body :
    requests_post ⟨[], 0⟩ ⟨[], []⟩ {} ⟨0, some [], [], 0⟩ (some [[97], [98]]) 2
      = .error Err.bufOverflow
    ∧ requests_put ⟨[], 0⟩ ⟨[], []⟩ {} ⟨0, some [], [], 0⟩ (some [[97], [98]]) 2
      = .error Err.bufOverflow
    ∧ (∀ eng una curl req data data_size,
        requests_post eng una curl req data data_size
          = requests_pt eng una curl req data data_size none 0 0)
    ∧ (∀ eng una curl req data data_size,
        requests_put eng una curl req data data_size
          = requests_pt eng una curl req data data_size none 0 1)
    ∧ requests_post ⟨[], 0⟩ ⟨[], []⟩ {} ⟨0, some [], [], 0⟩ none 0
      = .ok (⟨some [], true, true, none, some [strB "Content-Length: 0"], none,
             true, some (strB "librequests/0.1 /")⟩, ⟨0, some [], [], 0⟩)
    ∧ requests_put ⟨[], 0⟩ ⟨[], []⟩ {} ⟨0, some [], [], 0⟩ none 0
      = .ok (⟨some [], true, true, none, some [strB "Content-Length: 0"],
             some (strB "PUT"), false, some (strB "librequests/0.1 /")⟩,
             ⟨0, some [], [], 0⟩) :=
  ⟨rfl, rfl, fun _ _ _ _ _ _ => rfl, fun _ _ _ _ _ _ => rfl, rfl, rfl⟩

/-- C9: `user_agent` composes exactly
`"librequests/0.1 <sysname>/<release>"` from the fixed product/version
literal and the host uname data (the `snprintf` size is exactly the
formatted length plus one, so nothing is truncated); every successful
POST/PUT installs it as the user agent, and `requests_get` leaves the
handle's user-agent option exactly as it found it. -/
theorem user_agent_format_and_attachment :
    (∀ una : Uname, user_agent una
        = strB "librequests/0.1" ++ [32] ++ una.sysname ++ [47] ++ una.release)
    ∧ (∀ eng una curl req data data_size headers headers_size put_flag cfg req',
        requests_pt eng una curl req data data_size headers headers_size put_flag
          = .ok (cfg, req') →
        cfg.useragent = some (user_agent una))
    ∧ (∀ (eng : Engine) (curl : CurlConfig) (req : REQ) cfg req',
        requests_get eng curl req = .ok (cfg, req') →
        cfg.useragent = curl.useragent) := by
  refine ⟨?_, ?_, ?_⟩
  · intro una
    unfold user_agent
    rw [List.take_of_length_le]
    simp [strB]
    omega
  · intro eng una curl req data data_size headers headers_size put_flag cfg req' h
    exact (requests_pt_ok_char h).2.2.1
  · intro eng curl req cfg req' h
    obtain ⟨-, h2⟩ := requests_get_ok_char h
    subst h2
    rfl

/-- C9 witness: a POST on a host with uname `Linux`/`5.0`. -/
theorem user_agent_format_and_attachment_witness :
    requests_pt ⟨[], 0⟩ ⟨strB "Linux", strB "5.0"⟩ {} ⟨0, some [], [], 0⟩
        none 0 none 0 0
      = .ok (⟨some [], true, true, none, some [strB "Content-Length: 0"], none,
             true, some (strB "librequests/0.1 Linux/5.0")⟩, ⟨0, some [], [], 0⟩)
    ∧ (⟨some [], true, true, none, some [strB "Content-Length: 0"], none,
        true, some (strB "librequests/0.1 Linux/5.0")⟩ : CurlConfig).useragent
        = some (user_agent ⟨strB "Linux", strB "5.0"⟩) :=
  ⟨rfl,
    user_agent_format_and_attachment.2.1 ⟨[], 0⟩ ⟨strB "Linux", strB "5.0"⟩ {}
      ⟨0, some [], [], 0⟩ none 0 none 0 0 _ _ rfl⟩

/-- C10: `url_encode` itself never checks evenness: for every odd
`data_size` equal to the array length, its pairing loop reads
`data[data_size]`, one element past the end of the input; the even-size
assertion lives only in `requests_pt`, and only fires when `data` is
non-NULL — with `data == NULL` the assertion is never raised, whatever
`data_size` is. -/
theorem url_encode_unguarded_oob :
    (∀ (data : List (List Nat)) (data_size : Nat),
        data_size = data.length → data_size % 2 = 1 →
        url_encode data data_size = .error (Err.oobRead data_size))
    ∧ (∀ eng una curl req d data_size headers headers_size put_flag,
        (put_flag = 0 ∨ put_flag = 1) → data_size % 2 = 1 →
        requests_pt eng una curl req (some d) data_size headers headers_size
          put_flag = .error Err.oddDataSize)
    ∧ (∀ eng una curl req data_size headers headers_size put_flag,
        (put_flag = 0 ∨ put_flag = 1) →
        requests_pt eng una curl req none data_size headers headers_size put_flag
          ≠ .error Err.oddDataSize) := by
  refine ⟨url_encode_odd, ?_, ?_⟩
  · intro eng una curl req d data_size headers headers_size put_flag hpf hodd
    unfold requests_pt
    rw [if_pos hpf]
    dsimp only
    rw [if_neg (by omega : ¬ data_size % 2 = 0)]
  · intro eng una curl req data_size headers headers_size put_flag hpf h
    rw [requests_pt, if_pos hpf] at h
    dsimp only at h
    cases headers with
    | none =>
      rw [requests_pt_finish_spec] at h
      exact Except.noConfusion h
    | some hl =>
      dsimp only at h
      cases hrh : readHdrs hl headers_size with
      | error e =>
        rw [hrh] at h
        obtain ⟨i, rfl⟩ := readHdrs_err hl headers_size e hrh
        exact Err.noConfusion (Except.error.inj h)
      | ok adds =>
        simp only [hrh, requests_pt_finish_spec] at h
        exact Except.noConfusion h

/-- C10 witness: a direct call with the odd-length array `["k"]` reads
`data[1]`, and `requests_pt` with that data fails the evenness assertion
while the no-data call never does. -/
theorem url_encode_unguarded_oob_witness :
    ((1 : Nat) = ([[107]] : List (List Nat)).length ∧ (1 : Nat) % 2 = 1
      ∧ url_encode [[107]] 1 = .error (Err.oobRead 1))
    ∧ requests_pt ⟨[], 0⟩ ⟨[], []⟩ {} ⟨0, some [], [], 0⟩ (some [[107]]) 1
        none 0 0 = .error Err.oddDataSize
    ∧ requests_pt ⟨[], 0⟩ ⟨[], []⟩ {} ⟨0, some [], [], 0⟩ none 1 none 0 0
        ≠ .error Err.oddDataSize :=
  ⟨⟨rfl, rfl, url_encode_unguarded_oob.1 [[107]] 1 rfl rfl⟩,
    url_encode_unguarded_oob.2.1 ⟨[], 0⟩ ⟨[], []⟩ {} ⟨0, some [], [], 0⟩
      [[107]] 1 none 0 0 (Or.inl rfl) rfl,
    url_encode_unguarded_oob.2.2 ⟨[], 0⟩ ⟨[], []⟩ {} ⟨0, some [], [], 0⟩
      1 none 0 0 (Or.inl rfl)⟩

end Librequests
